import Mathlib

/-!
# Verification of the linear drag-reorder model (nmsn/canvas)

Shallow embedding of the drag-to-reorder logic of the repository's demo
pages, chiefly `src/app/fabric/page.tsx` (grid page: `calculateSquarePosition`,
`calculateTargetIndex`, `calculateInsertIndex`, `updateSquareOrder`,
`updateSquarePositionsRealtime`, `addSquareToCanvas`, `handleExternalDrop`)
and the plain-React sort page (`handleDrop`, `handleDragEnd`).

Conventions of the embedding:
* JS numbers are embedded as `ℚ` (all computations involved are exact
  dyadic/rational arithmetic); array indices as `ℕ`/`ℤ`.
* `Math.floor(x + 0.5)` / `Math.round x` is `⌊x + 1/2⌋` (`jsRound`).
* `Array.prototype.findIndex` (which returns `-1` when absent, immediately
  checked by the callers) is `findIndexO`, returning `Option ℕ`.
* `Array.prototype.splice(n, 0, a)` clamps the index to the array length;
  this is `spliceInsert`.
* Render-only fields (`color`, `label`, the Fabric.js object handle) that no
  reordering logic reads are omitted from the item structures.
-/

/-- Module constant `PADDING` of `fabric/page.tsx` (the inter-item spacing). -/
def PADDING : ℚ := 20

/-- Module constant `SQUARE_WIDTH` of `fabric/page.tsx`. -/
def SQUARE_WIDTH : ℚ := 80

/-- Module constant `CANVAS_WIDTH` of `fabric/page.tsx`. -/
def CANVAS_WIDTH : ℚ := 800

/-- Module constant `CANVAS_HEIGHT` of `fabric/page.tsx`. -/
def CANVAS_HEIGHT : ℚ := 400

/-- JS `Math.floor(x + 0.5)` (and `Math.round` on the values that occur here):
round half up. -/
def jsRound (q : ℚ) : ℤ := ⌊q + 1/2⌋

/-- `calculateSquarePosition(index, size, totalCount)` from `fabric/page.tsx`
lines 107-113: the x coordinate of the slot `index` when `totalCount` items of
width `size` are laid out as a centered block with `PADDING` spacing.
The `totalCount ?? canvasSquares.length` default is made an explicit
argument. -/
def calculateSquarePosition (index : ℤ) (size : ℚ) (count : ℕ) : ℚ :=
  let spacing := PADDING
  let totalWidth := (count : ℚ) * size + ((count : ℚ) - 1) * spacing
  let startX := (CANVAS_WIDTH - totalWidth) / 2
  startX + (index : ℚ) * (size + spacing)

/-- `calculateTargetIndex(currentX, size, totalCount)` from `fabric/page.tsx`
lines 122-135: the slot index the dragged square (left edge at `currentX`)
is closest to, clamped to `[0, count-1]`. -/
def calculateTargetIndex (currentX : ℚ) (size : ℚ) (count : ℕ) : ℤ :=
  let spacing := PADDING
  let totalWidth := (count : ℚ) * size + ((count : ℚ) - 1) * spacing
  let startX := (CANVAS_WIDTH - totalWidth) / 2
  let draggedCenterX := currentX + size / 2
  let relativeX := draggedCenterX - (startX + size / 2)
  let index := jsRound (relativeX / (size + spacing))
  max 0 (min ((count : ℤ) - 1) index)

/-- `slotIndexForCoordinate(coordinate, itemSize, spacing, itemCount,
containerExtent)` as §4.1 of the spec words it (spec-side definition, used to
compare the code's `calculateTargetIndex` against the spec formula):
`startOffset = (containerExtent - (itemCount*itemSize + (itemCount-1)*spacing)) / 2`,
result `round((coordinate - startOffset - itemSize/2) / (itemSize + spacing))`
clamped to `[0, itemCount-1]`. -/
def slotIndexForCoordinate (coordinate itemSize spacing containerExtent : ℚ)
    (itemCount : ℕ) : ℤ :=
  let startOffset :=
    (containerExtent - ((itemCount : ℚ) * itemSize + ((itemCount : ℚ) - 1) * spacing)) / 2
  let idx := jsRound ((coordinate - startOffset - itemSize / 2) / (itemSize + spacing))
  max 0 (min ((itemCount : ℤ) - 1) idx)

/-- `calculateInsertIndex(mouseX, mouseY, size)` from `fabric/page.tsx`
lines 144-165, with canvas-relative coordinates (`mouseX - rect.left`,
`mouseY - rect.top`) as inputs and the current square count `len` explicit.
Returns `-1` when the pointer is outside the canvas, otherwise the insertion
index for a block of `len + 1` items, clamped to `[0, len]`. -/
def calculateInsertIndex (canvasX canvasY size : ℚ) (len : ℕ) : ℤ :=
  if canvasX < 0 ∨ canvasX > CANVAS_WIDTH ∨ canvasY < 0 ∨ canvasY > CANVAS_HEIGHT then
    -1
  else
    let spacing := PADDING
    let newCount : ℚ := (len : ℚ) + 1
    let totalWidth := newCount * size + (newCount - 1) * spacing
    let startX := (CANVAS_WIDTH - totalWidth) / 2
    let relativeX := canvasX - startX
    max 0 (min (len : ℤ) (jsRound (relativeX / (size + spacing))))

/-- The slot-index computation of `handleObjectMoved` from the second
FabricPage document of `fabric/page.tsx` (lines 987-1024):
`Math.round((currentX - 50) / (size + 20))` clamped to `[0, count-1]`. This
divergent near-duplicate uses that page's fixed layout start x of 50 (its
`calculateSquarePosition` is `50 + index * (size + 20)`), not a centered
start offset. -/
def handleObjectMovedTargetIndex (currentX size : ℚ) (count : ℕ) : ℤ :=
  let targetIndex := jsRound ((currentX - 50) / (size + 20))
  max 0 (min ((count : ℤ) - 1) targetIndex)

/-- `CanvasSquare` of `fabric/page.tsx` (grid page): stable key `id`, item
size (from its `config`), and the recorded `position` index. The `color` and
the Fabric.js `Rect` handle are render-only and omitted. -/
structure CanvasSquare where
  id : String
  size : ℚ
  position : ℕ
deriving DecidableEq

/-- `DragSourceSquare` of `fabric/page.tsx`: a palette item (`label` is
render-only and omitted). -/
structure DragSourceSquare where
  id : String
  color : String
  size : ℚ
deriving DecidableEq

/-- `SquareItem` of the plain-React sort page. -/
structure SquareItem where
  id : String
  color : String
  name : String
deriving DecidableEq

/-- JS `Array.prototype.findIndex`, with the `-1` result embedded as `none`
(every caller checks `!== -1` immediately). -/
def findIndexO {α : Type} (p : α → Bool) : List α → Option ℕ
  | [] => none
  | a :: l => if p a then some 0 else (findIndexO p l).map (· + 1)

/-- JS `Array.prototype.splice(n, 0, a)`: insert `a` at index `n`, clamped to
the array length. -/
def spliceInsert {α : Type} (n : ℕ) (a : α) (l : List α) : List α :=
  List.insertIdx (min n l.length) a l

/-- The `newSquares.forEach((square, index) => square.position = index)` loop
of `fabric/page.tsx`, starting the numbering at `n`. -/
def renumberFrom : List CanvasSquare → ℕ → List CanvasSquare
  | [], _ => []
  | s :: rest, n => { s with position := n } :: renumberFrom rest (n + 1)

/-- Rewrite every square's `position` field to its array index (0-based). -/
def renumber (l : List CanvasSquare) : List CanvasSquare := renumberFrom l 0

/-- The identity-and-size part of a square — everything except the mutable
`position` field. -/
def strip (s : CanvasSquare) : String × ℚ := (s.id, s.size)

/-- The data-model invariant of spec §3: every item's recorded `position`
equals its array index (equivalently, renumbering is the identity). -/
def Consistent (l : List CanvasSquare) : Prop := renumber l = l

/-- `updateSquareOrder(draggedSquare, targetIndex)` from `fabric/page.tsx`
lines 172-194, with the `canvasSquares` state an explicit argument: find the
dragged square by id; if found at an index other than `targetIndex`, remove
it, splice it back in at `targetIndex`, and rewrite every `position` to the
new array index. Otherwise the sequence is returned unchanged. -/
def updateSquareOrder (canvasSquares : List CanvasSquare) (draggedSquare : CanvasSquare)
    (targetIndex : ℕ) : List CanvasSquare :=
  match findIndexO (fun s => s.id == draggedSquare.id) canvasSquares with
  | none => canvasSquares
  | some currentIndex =>
    if currentIndex = targetIndex then canvasSquares
    else
      match canvasSquares[currentIndex]? with
      | none => canvasSquares.eraseIdx currentIndex
      | some removedSquare =>
        renumber (spliceInsert targetIndex removedSquare (canvasSquares.eraseIdx currentIndex))

/-- `addSquareToCanvas(sourceSquare, insertIndex)` from `fabric/page.tsx`
lines 313-378 (state part): build the new square (its fresh
`Date.now()`-based id is the explicit `newId` argument), splice it in at
`insertIndex`, and rewrite every `position` to the new array index. -/
def addSquareToCanvas (canvasSquares : List CanvasSquare) (sourceSquare : DragSourceSquare)
    (newId : String) (insertIndex : ℕ) : List CanvasSquare :=
  let newCanvasSquare : CanvasSquare :=
    { id := newId, size := sourceSquare.size, position := insertIndex }
  renumber (spliceInsert insertIndex newCanvasSquare canvasSquares)

/-- `handleExternalDrop` from `fabric/page.tsx` lines 638-650 (state part,
with canvas-relative drop coordinates): compute the insertion index; only a
non-negative index (pointer inside the canvas) adds the square. -/
def handleExternalDrop (canvasSquares : List CanvasSquare) (sourceSquare : DragSourceSquare)
    (newId : String) (canvasX canvasY : ℚ) : List CanvasSquare :=
  let insertIndex := calculateInsertIndex canvasX canvasY sourceSquare.size canvasSquares.length
  if 0 ≤ insertIndex then
    addSquareToCanvas canvasSquares sourceSquare newId insertIndex.toNat
  else
    canvasSquares

/-- The right-area reorder path of `handleDrop` from the sort page
(lines 151-233 for `sourceArea === 'right'`): clamp the insert index to
`[0, rightItems.length]`; skip when the drop would not move the item
(`currentIndex === insertIndex` or `currentIndex === insertIndex - 1`);
otherwise remove the dragged item, decrement the insertion index when the
removal point was before it, and splice the item back in. -/
def handleDropRight (rightItems : List SquareItem) (draggedItem : SquareItem)
    (insertIndexRaw : ℤ) : List SquareItem :=
  let insertIndex : ℤ := max 0 (min insertIndexRaw (rightItems.length : ℤ))
  match findIndexO (fun i => i.id == draggedItem.id) rightItems with
  | none => rightItems
  | some currentIndex =>
    if (currentIndex : ℤ) = insertIndex ∨
        ((currentIndex : ℤ) = insertIndex - 1 ∧ 0 < insertIndex) then
      rightItems
    else
      let newItems := rightItems.eraseIdx currentIndex
      let adjustedInsertIndex : ℤ :=
        if (currentIndex : ℤ) < insertIndex then insertIndex - 1 else insertIndex
      spliceInsert adjustedInsertIndex.toNat draggedItem newItems

/-- `reorder(sequence, movedItemKey, targetIndex)` as §4.1 of the spec words
it (spec-side definition, used to compare the code's reorder functions
against): remove the item with the moved key from its current position and
re-insert it at `targetIndex`, decremented by one when `targetIndex`
exceeded the removal point (the "splice adjustment"). -/
def reorderSpliceAdjust {α : Type} (key : α → String) (seq : List α) (movedKey : String)
    (targetIndex : ℕ) : List α :=
  match findIndexO (fun a => key a == movedKey) seq with
  | none => seq
  | some currentIndex =>
    match seq[currentIndex]? with
    | none => seq
    | some movedItem =>
      let adjusted := if currentIndex < targetIndex then targetIndex - 1 else targetIndex
      spliceInsert adjusted movedItem (seq.eraseIdx currentIndex)

/-- `updateSquarePositionsRealtime(targetIndex, draggedSquare)` from
`fabric/page.tsx` lines 237-279 (identically `leafer/page.tsx` lines
248-285): for every square other than the dragged one, the slot index it is
animated toward during the drag, paired with its id. The square list itself
is not changed — the function only produces per-item target x coordinates. -/
def updateSquarePositionsRealtime (canvasSquares : List CanvasSquare) (targetIndex : ℤ)
    (draggedSquare : CanvasSquare) : List (String × ℚ) :=
  let originalIndex : ℤ := (draggedSquare.position : ℤ)
  canvasSquares.enum.filterMap fun p =>
    let currentIndex : ℤ := (p.1 : ℤ)
    let square := p.2
    if square.id == draggedSquare.id then
      none
    else
      let newIndex : ℤ :=
        if originalIndex < targetIndex then
          if currentIndex > originalIndex ∧ currentIndex ≤ targetIndex then
            currentIndex - 1
          else currentIndex
        else if originalIndex > targetIndex then
          if currentIndex ≥ targetIndex ∧ currentIndex < originalIndex then
            currentIndex + 1
          else currentIndex
        else currentIndex
      some (square.id, calculateSquarePosition newIndex square.size canvasSquares.length)

/-- `previewShift` as the spec words it: an item whose index lies strictly
between the dragged item's original index `o` and the target index `t`
(inclusive on the target side) shifts one slot toward `o`; every other item
keeps its index. -/
def previewShiftIndex (o t c : ℤ) : ℤ :=
  if o < c ∧ c ≤ t then c - 1
  else if t ≤ c ∧ c < o then c + 1
  else c

/-- The `sourceArea` tag of the sort page's drag state. -/
inductive Area where
  | left
  | right
deriving DecidableEq

/-- `DragState` of the sort page. -/
structure DragState where
  draggedItem : Option SquareItem
  draggedOverId : Option String
  sourceArea : Area
deriving DecidableEq

/-- The sort page's state: the two item lists plus the transient drag
state. -/
structure SortPageState where
  leftItems : List SquareItem
  rightItems : List SquareItem
  dragState : DragState
  dragOverIndex : Option ℤ
  insertPosition : Option ℤ
  draggingItem : Option SquareItem

/-- `handleDragEnd` from the sort page lines 251-260: discard all transient
drag state; the item lists are not touched. -/
def handleDragEnd (s : SortPageState) : SortPageState :=
  { s with
    dragState := { draggedItem := none, draggedOverId := none, sourceArea := Area.left }
    dragOverIndex := none
    insertPosition := none
    draggingItem := none }

/-- The concrete scenario of spec §8: four squares `A,B,C,D` of size 80 in
an 800-wide container. -/
def exampleSquares : List CanvasSquare :=
  [⟨"A", 80, 0⟩, ⟨"B", 80, 1⟩, ⟨"C", 80, 2⟩, ⟨"D", 80, 3⟩]

/-- The dragged square `A` of the concrete scenario. -/
def exampleA : CanvasSquare := ⟨"A", 80, 0⟩

/-- A sequence whose recorded positions do not match the array indices
(positions 5 and 7), used to probe the renumbering behaviour. -/
def staleSquares : List CanvasSquare := [⟨"A", 80, 5⟩, ⟨"B", 80, 7⟩]

/-- Sort-page items `A,B,C,D` for the `handleDrop` scenarios. -/
def exampleItems : List SquareItem :=
  [⟨"A", "red", "a"⟩, ⟨"B", "teal", "b"⟩, ⟨"C", "blue", "c"⟩, ⟨"D", "green", "d"⟩]

/-- The dragged item `A` of the sort-page scenarios. -/
def exampleItemA : SquareItem := ⟨"A", "red", "a"⟩

/-- C2 counterexample: the claim's second cited source, `handleObjectMoved`
of the FabricPage document, does not compute the claimed centered start
offset. On that page (container 800, size 60, spacing 20, 6 squares) the
centered formula gives `startOffset = 170`, but the code uses the fixed 50:
at `currentX = 130` the code computes slot 1 while the claimed formula (at
cursor coordinate `130 + 60/2`) computes slot 0. -/
theorem C2_counterexample :
    handleObjectMovedTargetIndex 130 60 6 = 1 ∧
    slotIndexForCoordinate (130 + 60 / 2) 60 20 800 6 = 0 ∧
    handleObjectMovedTargetIndex 130 60 6 ≠
      slotIndexForCoordinate (130 + 60 / 2) 60 20 800 6 := by
  refine ⟨?_, ?_, ?_⟩ <;>
    norm_num [handleObjectMovedTargetIndex, slotIndexForCoordinate, jsRound]

/-- C2 (amended): the grid page's `calculateTargetIndex` is exactly the
spec's `slotIndexForCoordinate` at that page's constants
(`spacing = PADDING`, `containerExtent = CANVAS_WIDTH`), with the spec's
cursor coordinate being the dragged square's center `currentX + size/2`.
The FabricPage variant `handleObjectMoved` instead uses the fixed layout
start 50: it matches the spec formula only for the count-dependent
container extent `100 + (count*size + (count-1)*20)` (the extent for which
the centered start offset is 50), not for that page's actual extent 800. -/
theorem C2_slot_index_matches_spec_formula :
    (∀ (currentX size : ℚ) (count : ℕ),
      calculateTargetIndex currentX size count =
        slotIndexForCoordinate (currentX + size / 2) size PADDING CANVAS_WIDTH count) ∧
    (∀ (currentX size : ℚ) (count : ℕ),
      handleObjectMovedTargetIndex currentX size count =
        slotIndexForCoordinate (currentX + size / 2) size 20
          (100 + ((count : ℚ) * size + ((count : ℚ) - 1) * 20)) count) := by
  constructor
  · intro currentX size count
    simp only [calculateTargetIndex, slotIndexForCoordinate]
    have harg :
        (currentX + size / 2 - ((CANVAS_WIDTH - ((count : ℚ) * size + ((count : ℚ) - 1) * PADDING)) / 2 + size / 2)) =
        (currentX + size / 2 -
          (CANVAS_WIDTH - ((count : ℚ) * size + ((count : ℚ) - 1) * PADDING)) / 2 - size / 2) := by
      ring
    rw [harg]
  · intro currentX size count
    simp only [handleObjectMovedTargetIndex, slotIndexForCoordinate]
    have harg : (currentX - 50) =
        (currentX + size / 2 -
          (100 + ((count : ℚ) * size + ((count : ℚ) - 1) * 20) -
            ((count : ℚ) * size + ((count : ℚ) - 1) * 20)) / 2 - size / 2) := by
      ring
    rw [harg]

/-- C3 (in-bounds): for `count ≥ 1`, `calculateTargetIndex` returns an index in
`[0, count-1]` for every coordinate (in particular for coordinates within the
container); and the cross-panel `calculateInsertIndex` returns the sentinel
`-1` whenever the pointer coordinate falls outside the canvas extent. -/
theorem C3_slot_index_in_bounds :
    (∀ (currentX size : ℚ) (count : ℕ), 1 ≤ count →
      0 ≤ calculateTargetIndex currentX size count ∧
        calculateTargetIndex currentX size count ≤ (count : ℤ) - 1) ∧
    (∀ (canvasX canvasY size : ℚ) (len : ℕ),
      (canvasX < 0 ∨ canvasX > CANVAS_WIDTH ∨ canvasY < 0 ∨ canvasY > CANVAS_HEIGHT) →
      calculateInsertIndex canvasX canvasY size len = -1) := by
  constructor
  · intro currentX size count hcount
    simp only [calculateTargetIndex]
    have h1 : (1 : ℤ) ≤ (count : ℤ) := by exact_mod_cast hcount
    generalize jsRound ((currentX + size / 2 -
      ((CANVAS_WIDTH - ((count : ℚ) * size + ((count : ℚ) - 1) * PADDING)) / 2 + size / 2)) /
        (size + PADDING)) = r
    omega
  · intro canvasX canvasY size len hout
    unfold calculateInsertIndex
    rw [if_pos hout]

/-- Witness for C3 at concrete inputs: `count = 4` and a pointer at
`(900, 100)`, outside the 800-wide canvas. -/
theorem C3_slot_index_in_bounds_witness :
    (0 ≤ calculateTargetIndex 410 80 4 ∧ calculateTargetIndex 410 80 4 ≤ (4 : ℤ) - 1) ∧
    calculateInsertIndex 900 100 80 4 = -1 := by
  refine ⟨C3_slot_index_in_bounds.1 410 80 4 (by norm_num), ?_⟩
  exact C3_slot_index_in_bounds.2 900 100 80 4 (by norm_num [CANVAS_WIDTH, CANVAS_HEIGHT])

/-- C10: layout and slot-index computation are mutually inverse: feeding slot
`i`'s laid-out x coordinate back into `calculateTargetIndex` recovers `i`,
for every positive item size, `count ≥ 1` and `i < count`. -/
theorem C10_target_index_inverts_position (size : ℚ) (count : ℕ) (i : ℕ)
    (hsize : 0 < size) (hcount : 1 ≤ count) (hi : i < count) :
    calculateTargetIndex (calculateSquarePosition i size count) size count = i := by
  simp only [calculateTargetIndex, calculateSquarePosition]
  have hne : size + PADDING ≠ 0 := by
    have : (0 : ℚ) < PADDING := by norm_num [PADDING]
    nlinarith
  have harg :
      ((CANVAS_WIDTH - ((count : ℚ) * size + ((count : ℚ) - 1) * PADDING)) / 2 +
          ((i : ℤ) : ℚ) * (size + PADDING) + size / 2 -
        ((CANVAS_WIDTH - ((count : ℚ) * size + ((count : ℚ) - 1) * PADDING)) / 2 + size / 2)) /
        (size + PADDING) = ((i : ℤ) : ℚ) := by
    field_simp
  rw [harg]
  have hfloor : jsRound ((i : ℤ) : ℚ) = (i : ℤ) := by
    unfold jsRound
    rw [Int.floor_int_add]
    norm_num
  rw [hfloor]
  have h1 : (1 : ℤ) ≤ (count : ℤ) := by exact_mod_cast hcount
  have h2 : (i : ℤ) < (count : ℤ) := by exact_mod_cast hi
  omega

/-- Witness for C10 at `size = 80`, `count = 4`, `i = 2`. -/
theorem C10_target_index_inverts_position_witness :
    calculateTargetIndex (calculateSquarePosition 2 80 4) 80 4 = 2 :=
  C10_target_index_inverts_position 80 4 2 (by norm_num) (by norm_num) (by norm_num)

/-- Helper: `findIndexO` only returns indices inside the list. -/
theorem findIndexO_lt_length {α : Type} {p : α → Bool} {l : List α} {c : ℕ}
    (h : findIndexO p l = some c) : c < l.length := by
  induction l generalizing c with
  | nil => exact Option.noConfusion h
  | cons a l ih =>
    simp only [findIndexO] at h
    by_cases hp : p a
    · rw [if_pos hp] at h
      injection h with h
      simp [← h]
    · rw [if_neg hp] at h
      cases hfo : findIndexO p l with
      | none => rw [hfo] at h; simp at h
      | some c' =>
        rw [hfo] at h
        replace h : c' + 1 = c := by simpa using h
        have := ih hfo
        simp only [List.length_cons]
        omega

/-- Helper: the element `findIndexO` finds satisfies the predicate. -/
theorem findIndexO_get {α : Type} {p : α → Bool} {l : List α} {c : ℕ}
    (h : findIndexO p l = some c) (hc : c < l.length) : p (l.get ⟨c, hc⟩) = true := by
  induction l generalizing c with
  | nil => exact Option.noConfusion h
  | cons a l ih =>
    simp only [findIndexO] at h
    by_cases hp : p a
    · rw [if_pos hp] at h
      injection h with h
      subst h
      simpa using hp
    · rw [if_neg hp] at h
      cases hfo : findIndexO p l with
      | none => rw [hfo] at h; simp at h
      | some c' =>
        rw [hfo] at h
        replace h : c' + 1 = c := by simpa using h
        subst h
        exact ih hfo (by simpa using Nat.lt_of_succ_lt_succ (by simpa using hc))

/-- Helper: renumbering does not change which index an id is found at. -/
theorem findIndexO_renumberFrom (did : String) (l : List CanvasSquare) (n : ℕ) :
    findIndexO (fun s => s.id == did) (renumberFrom l n) =
      findIndexO (fun s => s.id == did) l := by
  induction l generalizing n with
  | nil => rfl
  | cons s rest ih => simp [renumberFrom, findIndexO, ih]

/-- Helper: inserting the only matching element at index `j` makes
`findIndexO` return `j`. -/
theorem findIndexO_insertIdx {α : Type} {p : α → Bool} {x : α} (hx : p x = true) :
    ∀ (j : ℕ) (m : List α), (∀ a ∈ m, p a = false) → j ≤ m.length →
      findIndexO p (List.insertIdx j x m) = some j := by
  intro j
  induction j with
  | zero => intro m _ _; simp [findIndexO, hx]
  | succ j ih =>
    intro m hm hj
    cases m with
    | nil => simp at hj
    | cons a m' =>
      have ha : p a = false := hm a (List.mem_cons_self a m')
      rw [List.insertIdx_succ_cons]
      simp only [findIndexO, ha, if_neg, Bool.false_eq_true, not_false_iff]
      rw [ih m' (fun b hb => hm b (List.mem_cons_of_mem a hb)) (by simpa using hj)]
      rfl

/-- Helper: renumbering preserves the length. -/
theorem length_renumberFrom (l : List CanvasSquare) (n : ℕ) :
    (renumberFrom l n).length = l.length := by
  induction l generalizing n with
  | nil => rfl
  | cons s rest ih => simp [renumberFrom, ih]

/-- Helper: the `k`-th square after renumbering from `n` is the original one
with its position rewritten to `n + k`. -/
theorem renumberFrom_get (l : List CanvasSquare) (n k : ℕ)
    (h : k < (renumberFrom l n).length) (h' : k < l.length) :
    (renumberFrom l n).get ⟨k, h⟩ = { l.get ⟨k, h'⟩ with position := n + k } := by
  induction l generalizing n k with
  | nil => simp at h'
  | cons s rest ih =>
    cases k with
    | zero => simp [renumberFrom]
    | succ k =>
      have h2 : k < (renumberFrom rest (n + 1)).length := by
        rw [length_renumberFrom]
        exact Nat.lt_of_succ_lt_succ (by simpa using h')
      have h2' : k < rest.length := Nat.lt_of_succ_lt_succ (by simpa using h')
      simp only [renumberFrom, List.get_cons_succ]
      rw [ih (n + 1) k h2 h2']
      have harith : n + 1 + k = n + (k + 1) := by omega
      rw [harith]

/-- Helper: `map` commutes with `eraseIdx`. -/
theorem map_eraseIdx {α β : Type} (f : α → β) :
    ∀ (l : List α) (n : ℕ), (l.eraseIdx n).map f = (l.map f).eraseIdx n := by
  intro l
  induction l with
  | nil => intro n; rfl
  | cons a l ih =>
    intro n
    cases n with
    | zero => rfl
    | succ n => simp [List.eraseIdx_cons_succ, ih]

/-- Helper: `map` commutes with `insertIdx`. -/
theorem map_insertIdx {α β : Type} (f : α → β) :
    ∀ (n : ℕ) (a : α) (l : List α),
      (List.insertIdx n a l).map f = List.insertIdx n (f a) (l.map f) := by
  intro n
  induction n with
  | zero => intro a l; rfl
  | succ n ih =>
    intro a l
    cases l with
    | nil => rfl
    | cons b l => simp [List.insertIdx_succ_cons, ih]

/-- Helper: `map` commutes with the clamped splice insertion. -/
theorem map_spliceInsert {α β : Type} (f : α → β) (n : ℕ) (a : α) (l : List α) :
    (spliceInsert n a l).map f = spliceInsert n (f a) (l.map f) := by
  unfold spliceInsert
  rw [map_insertIdx, List.length_map]

/-- Helper: renumbering does not change ids and sizes. -/
theorem map_strip_renumberFrom (l : List CanvasSquare) (n : ℕ) :
    (renumberFrom l n).map strip = l.map strip := by
  induction l generalizing n with
  | nil => rfl
  | cons s rest ih => simp [renumberFrom, strip, ih]

/-- Helper: a square with its position overwritten by its own position is
itself. -/
theorem setPosition_eq_self (s : CanvasSquare) (n : ℕ) :
    ({ s with position := n } = s) ↔ s.position = n := by
  cases s
  simp only [CanvasSquare.mk.injEq, true_and]
  exact eq_comm

/-- Helper: renumbering only looks at ids and sizes, so two lists that agree
on those renumber identically. -/
theorem renumberFrom_congr :
    ∀ (l₁ l₂ : List CanvasSquare) (n : ℕ), l₁.map strip = l₂.map strip →
      renumberFrom l₁ n = renumberFrom l₂ n := by
  intro l₁
  induction l₁ with
  | nil =>
    intro l₂ n h
    cases l₂ with
    | nil => rfl
    | cons b l₂ => simp at h
  | cons a l₁ ih =>
    intro l₂ n h
    cases l₂ with
    | nil => simp at h
    | cons b l₂ =>
      simp only [List.map_cons, List.cons.injEq] at h
      obtain ⟨hab, htail⟩ := h
      have hid : a.id = b.id := congrArg Prod.fst hab
      have hsize : a.size = b.size := congrArg Prod.snd hab
      simp only [renumberFrom, List.cons.injEq]
      constructor
      · cases a; cases b
        simp only [strip] at hid hsize
        simp [hid, hsize]
      · exact ih l₂ (n + 1) htail

/-- Helper: renumbering from `n` is the identity exactly when every recorded
position already equals `n` plus the array index. -/
theorem renumberFrom_eq_self :
    ∀ (l : List CanvasSquare) (n : ℕ),
      renumberFrom l n = l ↔ ∀ (k : ℕ) (h : k < l.length), (l.get ⟨k, h⟩).position = n + k := by
  intro l
  induction l with
  | nil => intro n; simp [renumberFrom]
  | cons s rest ih =>
    intro n
    simp only [renumberFrom, List.cons_eq_cons, setPosition_eq_self, ih]
    constructor
    · rintro ⟨h1, h2⟩ k hk
      cases k with
      | zero => simpa using h1
      | succ k =>
        have := h2 k (Nat.lt_of_succ_lt_succ (by simpa using hk))
        simp only [List.get_cons_succ]
        omega
    · intro h
      refine ⟨by simpa using h 0 (by simp), fun k hk => ?_⟩
      have := h (k + 1) (by simpa using Nat.succ_lt_succ hk)
      simp only [List.get_cons_succ] at this
      omega

/-- Helper: the spec §3 invariant spelled out pointwise. -/
theorem consistent_iff (l : List CanvasSquare) :
    Consistent l ↔ ∀ (k : ℕ) (h : k < l.length), (l.get ⟨k, h⟩).position = k := by
  unfold Consistent renumber
  rw [renumberFrom_eq_self]
  simp

/-- Helper: the output of `renumber` always satisfies the invariant. -/
theorem renumber_consistent (l : List CanvasSquare) : Consistent (renumber l) :=
  renumberFrom_congr (renumber l) l 0 (map_strip_renumberFrom l 0)

/-- Helper: re-inserting the element just removed at the same index restores
the list. -/
theorem insertIdx_get_eraseIdx :
    ∀ {α : Type} (l : List α) (i : ℕ) (h : i < l.length),
      List.insertIdx i (l.get ⟨i, h⟩) (l.eraseIdx i) = l := by
  intro α l
  induction l with
  | nil => intro i h; simp at h
  | cons a l ih =>
    intro i h
    cases i with
    | zero => rfl
    | succ i =>
      simp only [List.get_cons_succ, List.eraseIdx_cons_succ, List.insertIdx_succ_cons]
      rw [ih i (Nat.lt_of_succ_lt_succ (by simpa using h))]

/-- Helper: every element of `l.eraseIdx i` is an element of `l` at an index
other than `i`. -/
theorem mem_eraseIdx_imp {α : Type} :
    ∀ {l : List α} {i : ℕ} {a : α}, a ∈ l.eraseIdx i →
      ∃ (m : ℕ) (hm : m < l.length), m ≠ i ∧ l.get ⟨m, hm⟩ = a := by
  intro l
  induction l with
  | nil => intro i a h; simp [List.eraseIdx] at h
  | cons b l ih =>
    intro i a h
    cases i with
    | zero =>
      simp only [List.eraseIdx_cons_zero] at h
      obtain ⟨⟨m, hm⟩, hget⟩ := List.mem_iff_get.mp h
      exact ⟨m + 1, by simpa using Nat.succ_lt_succ hm, by omega, by simpa using hget⟩
    | succ i =>
      simp only [List.eraseIdx_cons_succ, List.mem_cons] at h
      rcases h with h | h
      · exact ⟨0, by simp, by omega, by simpa using h.symm⟩
      · obtain ⟨m, hm, hne, hget⟩ := ih h
        exact ⟨m + 1, by simpa using Nat.succ_lt_succ hm, by omega, by simpa using hget⟩

/-- Helper: `updateSquareOrder` when the dragged id is absent. -/
theorem updateSquareOrder_not_found {l : List CanvasSquare} {d : CanvasSquare} {t : ℕ}
    (h : findIndexO (fun s => s.id == d.id) l = none) : updateSquareOrder l d t = l := by
  unfold updateSquareOrder
  rw [h]

/-- Helper: `updateSquareOrder` when the target equals the current index. -/
theorem updateSquareOrder_found_self {l : List CanvasSquare} {d : CanvasSquare} {c : ℕ}
    (h : findIndexO (fun s => s.id == d.id) l = some c) : updateSquareOrder l d c = l := by
  unfold updateSquareOrder
  rw [h]
  dsimp only
  rw [if_pos rfl]

/-- Helper: `updateSquareOrder` on an effective move: remove at the found
index, splice back in at the target, renumber. -/
theorem updateSquareOrder_moves {l : List CanvasSquare} {d : CanvasSquare} {c t : ℕ}
    (h : findIndexO (fun s => s.id == d.id) l = some c) (hct : c ≠ t)
    (hc : c < l.length) :
    updateSquareOrder l d t = renumber (spliceInsert t l[c] (l.eraseIdx c)) := by
  unfold updateSquareOrder
  rw [h]
  dsimp only
  rw [if_neg hct, List.getElem?_eq_getElem hc]

/-- C5: reordering an item to its own current index is a no-op, both for the
grid page's `updateSquareOrder` and for the sort page's `handleDrop`
right-area reorder: the sequence comes back unchanged. -/
theorem C5_reorder_to_current_index_is_noop :
    (∀ (l : List CanvasSquare) (d : CanvasSquare) (c : ℕ),
      findIndexO (fun s => s.id == d.id) l = some c →
      updateSquareOrder l d c = l) ∧
    (∀ (items : List SquareItem) (d : SquareItem) (c : ℕ),
      findIndexO (fun i => i.id == d.id) items = some c →
      handleDropRight items d (c : ℤ) = items) := by
  constructor
  · intro l d c h
    exact updateSquareOrder_found_self h
  · intro items d c h
    have hc := findIndexO_lt_length h
    have hmin : min (c : ℤ) (items.length : ℤ) = (c : ℤ) :=
      min_eq_left (by exact_mod_cast Nat.le_of_lt hc)
    have hmax : max (0 : ℤ) (c : ℤ) = (c : ℤ) := max_eq_right (by positivity)
    simp only [handleDropRight, h, hmin, hmax]
    rw [if_pos (Or.inl trivial)]

/-- Witness for C5: the four-square scenario with `A` dropped back onto its
own slot 0. -/
theorem C5_reorder_to_current_index_is_noop_witness :
    updateSquareOrder exampleSquares exampleA 0 = exampleSquares ∧
    handleDropRight exampleItems exampleItemA 0 = exampleItems :=
  ⟨C5_reorder_to_current_index_is_noop.1 exampleSquares exampleA 0 (by decide),
   C5_reorder_to_current_index_is_noop.2 exampleItems exampleItemA 0 (by decide)⟩

/-- C7: the concrete spec §8 scenario: with `[A,B,C,D]`, size 80, spacing 20
and container 800, slot 2's coordinate is 410, that coordinate's computed
slot index is 2, and committing the reorder of `A` there yields `[B,C,A,D]`
(with positions renumbered 0..3). -/
theorem C7_concrete_drag_A_to_slot2 :
    calculateSquarePosition 2 80 4 = 410 ∧
    calculateTargetIndex 410 80 4 = 2 ∧
    updateSquareOrder exampleSquares exampleA 2 =
      [⟨"B", 80, 0⟩, ⟨"C", 80, 1⟩, ⟨"A", 80, 2⟩, ⟨"D", 80, 3⟩] := by
  refine ⟨?_, ?_, by decide⟩
  · norm_num [calculateSquarePosition, PADDING, CANVAS_WIDTH]
  · norm_num [calculateTargetIndex, jsRound, PADDING, CANVAS_WIDTH]

/-- C4 counterexample: reordering an item onto its own index skips the
renumbering loop, so a sequence whose recorded position (5) disagrees with
its array index (0) keeps the stale position — the claim's universal "for
every input sequence" fails. -/
theorem C4_counterexample :
    (updateSquareOrder [⟨"A", 80, 5⟩] ⟨"A", 80, 5⟩ 0).map (fun s => s.position) = [5] ∧
    ([5] : List ℕ) ≠ [0] := by
  decide

/-- C4 (amended): after a reorder of a sequence already satisfying the
position invariant, and after any cross-panel insertion unconditionally,
every item's recorded position equals its array index (0-based, gap-free). -/
theorem C4_positions_equal_indices :
    (∀ (l : List CanvasSquare) (d : CanvasSquare) (t : ℕ), Consistent l →
      ∀ (k : ℕ) (h : k < (updateSquareOrder l d t).length),
        ((updateSquareOrder l d t).get ⟨k, h⟩).position = k) ∧
    (∀ (l : List CanvasSquare) (src : DragSourceSquare) (newId : String) (i : ℕ)
      (k : ℕ) (h : k < (addSquareToCanvas l src newId i).length),
        ((addSquareToCanvas l src newId i).get ⟨k, h⟩).position = k) := by
  constructor
  · intro l d t hcons
    suffices h : Consistent (updateSquareOrder l d t) by
      exact (consistent_iff _).mp h
    cases hfo : findIndexO (fun s => s.id == d.id) l with
    | none => rw [updateSquareOrder_not_found hfo]; exact hcons
    | some c =>
      by_cases hct : c = t
      · subst hct
        rw [updateSquareOrder_found_self hfo]
        exact hcons
      · rw [updateSquareOrder_moves hfo hct (findIndexO_lt_length hfo)]
        exact renumber_consistent _
  · intro l src newId i
    exact fun k h => (consistent_iff _).mp (renumber_consistent _) k h

/-- Witness for C4: the consistent four-square scenario, checking the square
that lands at index 2 after the reorder, and the square at index 1 after a
cross-panel insertion at index 1. -/
theorem C4_positions_equal_indices_witness :
    ((updateSquareOrder exampleSquares exampleA 2).get ⟨2, by decide⟩).position = 2 ∧
    ((addSquareToCanvas exampleSquares ⟨"source-1", "#FFD93D", 80⟩ "new" 1).get
      ⟨1, by decide⟩).position = 1 :=
  ⟨C4_positions_equal_indices.1 exampleSquares exampleA 2 (by exact rfl) 2 (by decide),
   C4_positions_equal_indices.2 exampleSquares ⟨"source-1", "#FFD93D", 80⟩ "new" 1 1 (by decide)⟩

/-- C8: a drop released outside the canvas bounds leaves the square sequence
exactly as it was (`handleExternalDrop` only inserts for a non-negative
insert index, and outside coordinates produce the `-1` sentinel), and the
sort page's `handleDragEnd` only discards the transient drag state, never
touching either item list. -/
theorem C8_drop_outside_leaves_sequence_unchanged :
    (∀ (l : List CanvasSquare) (src : DragSourceSquare) (newId : String) (x y : ℚ),
      (x < 0 ∨ x > CANVAS_WIDTH ∨ y < 0 ∨ y > CANVAS_HEIGHT) →
      handleExternalDrop l src newId x y = l) ∧
    (∀ (s : SortPageState),
      (handleDragEnd s).leftItems = s.leftItems ∧
      (handleDragEnd s).rightItems = s.rightItems) := by
  constructor
  · intro l src newId x y hout
    have hins : calculateInsertIndex x y src.size l.length = -1 := by
      unfold calculateInsertIndex
      rw [if_pos hout]
    simp only [handleExternalDrop, hins]
    norm_num
  · intro s
    exact ⟨rfl, rfl⟩

/-- Witness for C8: a drop at `(900, 100)`, outside the 800-wide canvas,
and a drag end from a concrete sort-page state. -/
theorem C8_drop_outside_leaves_sequence_unchanged_witness :
    handleExternalDrop exampleSquares ⟨"source-1", "#FFD93D", 80⟩ "new" 900 100 =
      exampleSquares ∧
    ((handleDragEnd ⟨[], exampleItems, ⟨some exampleItemA, none, Area.right⟩,
        some 1, some 1, some exampleItemA⟩).leftItems = [] ∧
      (handleDragEnd ⟨[], exampleItems, ⟨some exampleItemA, none, Area.right⟩,
        some 1, some 1, some exampleItemA⟩).rightItems = exampleItems) :=
  ⟨C8_drop_outside_leaves_sequence_unchanged.1 exampleSquares ⟨"source-1", "#FFD93D", 80⟩
      "new" 900 100 (by norm_num [CANVAS_WIDTH, CANVAS_HEIGHT]),
   C8_drop_outside_leaves_sequence_unchanged.2 _⟩

/-- Helper: the realtime-shift index arithmetic of the code equals the
spec's "strictly between, inclusive on the target side, one slot toward the
original index" description. -/
theorem previewShiftIndex_eq_code (o t c : ℤ) :
    (if o < t then if c > o ∧ c ≤ t then c - 1 else c
     else if o > t then if c ≥ t ∧ c < o then c + 1 else c
     else c) = previewShiftIndex o t c := by
  unfold previewShiftIndex
  split_ifs <;> omega

/-- C9: `updateSquarePositionsRealtime` is a pure projection: it returns only
per-item target coordinates (the sequence is not part of its output), it
skips the dragged square, and every other square is sent to the slot given by
the spec's `previewShift` rule — one slot toward the dragged square's
original index when its index lies strictly between the original and target
indices (inclusive on the target side), its own index otherwise. -/
theorem C9_realtime_shift_matches_previewShift (canvasSquares : List CanvasSquare)
    (targetIndex : ℤ) (draggedSquare : CanvasSquare) :
    updateSquarePositionsRealtime canvasSquares targetIndex draggedSquare =
      canvasSquares.enum.filterMap (fun p =>
        if p.2.id == draggedSquare.id then none
        else
          some (p.2.id,
            calculateSquarePosition
              (previewShiftIndex (draggedSquare.position : ℤ) targetIndex (p.1 : ℤ))
              p.2.size canvasSquares.length)) := by
  simp only [updateSquarePositionsRealtime]
  apply List.filterMap_congr
  intro p _
  by_cases hid : (p.2.id == draggedSquare.id) = true
  · simp [hid]
  · simp only [Bool.not_eq_true] at hid
    simp only [hid, Bool.false_eq_true, if_false]
    rw [previewShiftIndex_eq_code]

/-- C1 counterexample: for `[A,B,C,D]` with `A` (removal point 0) moved to
target index 2, the grid page's `updateSquareOrder` yields id order
`[B,C,A,D]` (the moved item lands at index 2 of the shortened array — no
decrement is applied), while the claim's remove-then-insert-with-decrement
description yields `[B,A,C,D]`; the two differ, so `updateSquareOrder` does
not reproduce the splice adjustment. -/
theorem C1_counterexample :
    (updateSquareOrder exampleSquares exampleA 2).map (fun s => s.id) = ["B", "C", "A", "D"] ∧
    (reorderSpliceAdjust CanvasSquare.id exampleSquares "A" 2).map (fun s => s.id) =
      ["B", "A", "C", "D"] ∧
    (updateSquareOrder exampleSquares exampleA 2).map (fun s => s.id) ≠
      (reorderSpliceAdjust CanvasSquare.id exampleSquares "A" 2).map (fun s => s.id) := by
  decide

/-- C1 (amended): the two reorder implementations use different insertion
conventions. The sort page's `handleDrop` right-area reorder implements
exactly the spec's remove-then-insert with the decrement adjustment when the
insert index exceeds the removal point; the grid page's `updateSquareOrder`
applies no decrement — its `targetIndex` is the moved item's final index, so
after an effective move the dragged id sits at index `targetIndex`. -/
theorem C1_insertion_semantics :
    (∀ (items : List SquareItem) (d : SquareItem) (raw : ℤ) (c : ℕ),
      findIndexO (fun i => i.id == d.id) items = some c →
      items[c]? = some d →
      0 ≤ raw → raw ≤ (items.length : ℤ) →
      handleDropRight items d raw = reorderSpliceAdjust SquareItem.id items d.id raw.toNat) ∧
    (∀ (l : List CanvasSquare) (d : CanvasSquare) (t c : ℕ),
      findIndexO (fun s => s.id == d.id) l = some c →
      c ≠ t → t < l.length →
      ((updateSquareOrder l d t)[t]?).map (fun s => s.id) = some d.id) := by
  constructor
  · intro items d raw c hfo hget h0 hlen
    have hc := findIndexO_lt_length hfo
    obtain ⟨r, rfl⟩ : ∃ r : ℕ, raw = (r : ℤ) := ⟨raw.toNat, (Int.toNat_of_nonneg h0).symm⟩
    have hrlen : r ≤ items.length := by exact_mod_cast hlen
    have htn : ((r : ℤ)).toNat = r := Int.toNat_natCast r
    have hmin : min ((r : ℤ)) ((items.length : ℤ)) = (r : ℤ) :=
      min_eq_left (by exact_mod_cast hrlen)
    have hmax : max (0 : ℤ) (r : ℤ) = (r : ℤ) := max_eq_right (by positivity)
    have hgetc : items.get ⟨c, hc⟩ = d := by
      have h1 := List.getElem?_eq_getElem hc
      rw [hget] at h1
      injection h1 with h1
      rw [List.get_eq_getElem]
      exact h1.symm
    rw [htn]
    by_cases hguard : (c : ℤ) = (r : ℤ) ∨ ((c : ℤ) = (r : ℤ) - 1 ∧ 0 < (r : ℤ))
    · have hL : handleDropRight items d (r : ℤ) = items := by
        simp only [handleDropRight, hfo, hmin, hmax]
        rw [if_pos hguard]
      have hcr : (if c < r then r - 1 else r) = c := by
        rcases hguard with h | ⟨h, hr⟩ <;> (split_ifs <;> omega)
      have hR : reorderSpliceAdjust SquareItem.id items d.id r = items := by
        simp only [reorderSpliceAdjust, hfo, hget]
        rw [hcr]
        unfold spliceInsert
        have hclen : c ≤ (items.eraseIdx c).length := by
          rw [List.length_eraseIdx]
          simp only [hc, if_pos]
          omega
        rw [min_eq_left hclen, ← hgetc]
        exact insertIdx_get_eraseIdx items c hc
      rw [hL, hR]
    · have hidx : (if (c : ℤ) < (r : ℤ) then (r : ℤ) - 1 else (r : ℤ)).toNat =
          (if c < r then r - 1 else r) := by
        split_ifs <;> omega
      simp only [handleDropRight, hfo, hmin, hmax]
      rw [if_neg hguard]
      simp only [reorderSpliceAdjust, hfo, hget]
      rw [hidx]
  · intro l d t c hfo hct hlt
    have hc := findIndexO_lt_length hfo
    rw [updateSquareOrder_moves hfo hct hc]
    have hmlen : (l.eraseIdx c).length = l.length - 1 := by
      rw [List.length_eraseIdx]
      simp [hc]
    have htm : t ≤ (l.eraseIdx c).length := by omega
    have hsplice : spliceInsert t l[c] (l.eraseIdx c) = List.insertIdx t l[c] (l.eraseIdx c) := by
      unfold spliceInsert
      rw [min_eq_left htm]
    rw [hsplice]
    have hMlen : (List.insertIdx t l[c] (l.eraseIdx c)).length = l.length := by
      rw [List.length_insertIdx t (l.eraseIdx c) htm]
      omega
    have htR : t < (renumber (List.insertIdx t l[c] (l.eraseIdx c))).length := by
      rw [renumber, length_renumberFrom, hMlen]
      omega
    rw [List.getElem?_eq_getElem htR]
    refine congrArg some ?_
    have hx : (renumber (List.insertIdx t l[c] (l.eraseIdx c))).get ⟨t, htR⟩ =
        { (List.insertIdx t l[c] (l.eraseIdx c)).get ⟨t, by omega⟩ with position := 0 + t } :=
      renumberFrom_get _ 0 t htR (by omega)
    have hMt : (List.insertIdx t l[c] (l.eraseIdx c)).get ⟨t, by omega⟩ = l[c] :=
      List.get_insertIdx_self (l.eraseIdx c) l[c] t htm
    have hid : (l.get ⟨c, hc⟩).id = d.id := beq_iff_eq.mp (findIndexO_get hfo hc)
    show ((renumber (List.insertIdx t l[c] (l.eraseIdx c))).get ⟨t, htR⟩).id = d.id
    rw [hx]
    show ((List.insertIdx t l[c] (l.eraseIdx c)).get ⟨t, by omega⟩).id = d.id
    rw [hMt]
    exact hid

/-- Witness for C1: the sort-page scenario `[A,B,C,D]` with `A` dropped at
insert index 2, and the grid-page scenario `[A,B,C,D]` with `A` moved to
target index 2. -/
theorem C1_insertion_semantics_witness :
    handleDropRight exampleItems exampleItemA 2 =
      reorderSpliceAdjust SquareItem.id exampleItems exampleItemA.id (Int.toNat 2) ∧
    ((updateSquareOrder exampleSquares exampleA 2)[2]?).map (fun s => s.id) =
      some exampleA.id :=
  ⟨C1_insertion_semantics.1 exampleItems exampleItemA 2 0 (by decide) (by decide)
      (by norm_num) (by decide),
   C1_insertion_semantics.2 exampleSquares exampleA 2 0 (by decide) (by decide) (by decide)⟩

/-- C6 counterexample: starting from a sequence whose recorded positions (5
and 7) are not the array indices, moving `A` to index 1 and back to index 0
returns the original id order but with positions rewritten to 0 and 1 — the
resulting sequence differs from the original, so the round-trip law fails
for arbitrary sequences. -/
theorem C6_counterexample :
    updateSquareOrder (updateSquareOrder staleSquares ⟨"A", 80, 5⟩ 1) ⟨"A", 80, 5⟩ 0 ≠
      staleSquares := by
  decide

/-- C6 (amended): for a sequence satisfying the position invariant (spec §3,
maintained by every constructor of the page state) in which the moved key
occurs at exactly one index `i`, reordering to any in-range index `j` and
then back to `i` restores the original sequence. -/
theorem C6_roundtrip (l : List CanvasSquare) (d : CanvasSquare) (i j : ℕ)
    (hcons : Consistent l)
    (hfo : findIndexO (fun s => s.id == d.id) l = some i)
    (huniq : ∀ (k : ℕ) (h : k < l.length), (l.get ⟨k, h⟩).id = d.id → k = i)
    (hj : j < l.length) :
    updateSquareOrder (updateSquareOrder l d j) d i = l := by
  by_cases hij : i = j
  · subst hij
    rw [updateSquareOrder_found_self hfo, updateSquareOrder_found_self hfo]
  · have hi := findIndexO_lt_length hfo
    rw [updateSquareOrder_moves hfo hij hi]
    have hmlen : (l.eraseIdx i).length = l.length - 1 := by
      rw [List.length_eraseIdx]
      simp [hi]
    have hjm : j ≤ (l.eraseIdx i).length := by omega
    have hsplice : spliceInsert j l[i] (l.eraseIdx i) =
        List.insertIdx j l[i] (l.eraseIdx i) := by
      unfold spliceInsert
      rw [min_eq_left hjm]
    rw [hsplice]
    set x := l[i] with hxdef
    set m := l.eraseIdx i with hmdef
    set M := List.insertIdx j x m with hMdef
    have hMlen : M.length = l.length := by
      rw [hMdef, List.length_insertIdx j m hjm]
      omega
    have hxid : (x.id == d.id) = true := findIndexO_get hfo hi
    have hmne : ∀ a ∈ m, (a.id == d.id) = false := by
      intro a ha
      obtain ⟨k, hk, hki, hget⟩ := mem_eraseIdx_imp ha
      refine beq_eq_false_iff_ne.mpr (fun hcontra => hki ?_)
      exact huniq k hk (by rw [hget]; exact hcontra)
    have hfo1 : findIndexO (fun s => s.id == d.id) (renumber M) = some j := by
      unfold renumber
      rw [findIndexO_renumberFrom]
      exact findIndexO_insertIdx (p := fun s => s.id == d.id) hxid j m hmne hjm
    have hjR : j < (renumber M).length := by
      rw [renumber, length_renumberFrom, hMlen]
      omega
    rw [updateSquareOrder_moves hfo1 (Ne.symm hij) hjR]
    have hRlen : (renumber M).length = l.length := by
      rw [renumber, length_renumberFrom, hMlen]
    have hElen : ((renumber M).eraseIdx j).length = l.length - 1 := by
      rw [List.length_eraseIdx, hRlen]
      simp [hj]
    have him : i ≤ ((renumber M).eraseIdx j).length := by omega
    have hsplice2 : spliceInsert i (renumber M)[j] ((renumber M).eraseIdx j) =
        List.insertIdx i ((renumber M)[j]) ((renumber M).eraseIdx j) := by
      unfold spliceInsert
      rw [min_eq_left him]
    rw [hsplice2]
    have hy : (renumber M).get ⟨j, hjR⟩ =
        { M.get ⟨j, by omega⟩ with position := 0 + j } :=
      renumberFrom_get M 0 j hjR (by omega)
    have hMj : M.get ⟨j, by omega⟩ = x := List.get_insertIdx_self m x j hjm
    have h1 : strip ((renumber M)[j]) = strip x := by
      show strip ((renumber M).get ⟨j, hjR⟩) = strip x
      rw [hy, hMj]
      rfl
    have h2 : ((renumber M).eraseIdx j).map strip = m.map strip := by
      rw [map_eraseIdx]
      rw [show (renumber M).map strip = M.map strip from map_strip_renumberFrom M 0]
      rw [← map_eraseIdx, hMdef, List.eraseIdx_insertIdx]
    have hstrip : (List.insertIdx i ((renumber M)[j]) ((renumber M).eraseIdx j)).map strip =
        (List.insertIdx i x m).map strip := by
      rw [map_insertIdx, map_insertIdx, h1, h2]
    have hcongr := renumberFrom_congr _ _ 0 hstrip
    show renumberFrom (List.insertIdx i ((renumber M)[j]) ((renumber M).eraseIdx j)) 0 = l
    rw [hcongr]
    have hins : List.insertIdx i x m = l := by
      rw [hmdef, hxdef]
      exact insertIdx_get_eraseIdx l i hi
    rw [hins]
    exact hcons

/-- Witness for C6: the consistent four-square scenario, moving `A` from
index 0 to index 1 and back. -/
theorem C6_roundtrip_witness :
    updateSquareOrder (updateSquareOrder exampleSquares exampleA 1) exampleA 0 =
      exampleSquares :=
  C6_roundtrip exampleSquares exampleA 0 1 (by exact rfl) (by decide) (by decide)
    (by decide)
